import Mathlib

/-!
Verification of the Durak game engine (a two-player card game: one human,
one computer).  The Rust source is shallowly embedded: pure functions become
Lean functions, in-place mutation becomes explicit state passing, and the
fatal failures (`panic!`, `assert!`, `expect`) of partial operations are
modelled by `Option`-returning functions where `none` marks the fatal path.

Source files embedded: `src/card.rs` (Suit, Value, Card, Deck, Hand, Table)
and `src/game.rs` (Game, Action, Winner, Response, the transition functions),
together with the opponent policy from `src/ai.rs`.
-/

namespace Durak

/-- The four suits, `src/card.rs` enum `Suit`. -/
inductive Suit : Type
  | Clubs
  | Diamonds
  | Hearts
  | Spades
deriving DecidableEq, Fintype

/-- The nine card values, `src/card.rs` enum `Value` (Six lowest, Ace highest). -/
inductive Value : Type
  | Six
  | Seven
  | Eight
  | Nine
  | Ten
  | Jack
  | Queen
  | King
  | Ace
deriving DecidableEq, Fintype

/-- Index of a `Value` in declaration order; Rust's derived `Ord` on the
enum compares by this index. -/
def Value.idx : Value → Nat
  | .Six => 0
  | .Seven => 1
  | .Eight => 2
  | .Nine => 3
  | .Ten => 4
  | .Jack => 5
  | .Queen => 6
  | .King => 7
  | .Ace => 8

/-- Index of a `Suit` in declaration order (only used by the derived `Ord`
on `Card`, which sorts hands for display). -/
def Suit.idx : Suit → Nat
  | .Clubs => 0
  | .Diamonds => 1
  | .Hearts => 2
  | .Spades => 3

/-- A card, `src/card.rs` struct `Card`. -/
structure Card : Type where
  suit : Suit
  value : Value
deriving DecidableEq, Fintype

/-- `Card::beats` from `src/card.rs`: same suit decides by value, otherwise
the attacker wins exactly when it holds the trump suit. -/
def Card.beats (self other : Card) (trump : Suit) : Bool :=
  if self.suit = other.suit then
    other.value.idx < self.value.idx
  else
    self.suit = trump

/-- `Card::compare` from `src/card.rs`: the comparator used to sort hands
and candidate moves. -/
def Card.compare (self other : Card) (trump : Suit) : Ordering :=
  if self.suit = other.suit then
    Ord.compare self.value.idx other.value.idx
  else if self.suit = trump then
    Ordering.gt
  else if other.suit = trump then
    Ordering.lt
  else
    Ord.compare self.value.idx other.value.idx

/-- `ALL_SUITS` from `src/card.rs`. -/
def ALL_SUITS : List Suit := [.Clubs, .Diamonds, .Hearts, .Spades]

/-- `ALL_VALUES` from `src/card.rs`. -/
def ALL_VALUES : List Value :=
  [.Six, .Seven, .Eight, .Nine, .Ten, .Jack, .Queen, .King, .Ace]

/-- `HAND_SIZE` from `src/card.rs`. -/
def HAND_SIZE : Nat := 6

/-- The 36-card deck built by `Deck::new_sorted` (suits outer loop, values
inner loop, pushed in order). -/
def full_deck : List Card :=
  ALL_SUITS.foldr (fun s acc => (ALL_VALUES.map (fun v => ⟨s, v⟩)) ++ acc) []

/-- A table is an ordered list of slots, each an attack card together with
an optional defense card (`src/card.rs` struct `Table`). -/
abbrev Table : Type := List (Card × Option Card)

/-- A hand is the list of held cards (`src/card.rs` struct `Hand`);
the Rust `Vec` order is kept. -/
abbrev Hand : Type := List Card

/-- The boolean comparator corresponding to Rust's derived `Ord` on `Card`
(lexicographic on suit index, then value index), used by `sort_unstable`. -/
def card_le (a b : Card) : Bool :=
  decide (a.suit.idx < b.suit.idx ∨ (a.suit.idx = b.suit.idx ∧ a.value.idx ≤ b.value.idx))

/-- `self.cards.sort_unstable()` on a hand. -/
def sort_hand (h : Hand) : Hand := h.mergeSort card_le

/-- The comparator closure `|c1, c2| c1.compare(c2, trump)` seen as a
boolean "less or equal": ascending order under `Card::compare`. -/
def compare_le (trump : Suit) (a b : Card) : Bool :=
  decide (Card.compare a b trump ≠ Ordering.gt)

/-- `result.sort_unstable_by(|c1, c2| c1.compare(c2, trump))` in
`Hand::acceptable_moves`. -/
def sort_by_compare (trump : Suit) (l : List Card) : List Card :=
  l.mergeSort (compare_le trump)

/-- All cards lying on the table in drain order: for each slot the attack
card, then the defense card when present.  This is the order in which
`Hand::take_from` and `Game::discard_table` move the table's cards. -/
def flatten_table : Table → List Card
  | [] => []
  | (a, some d) :: rest => a :: d :: flatten_table rest
  | (a, none) :: rest => a :: flatten_table rest

/-- `Table::values` from `src/card.rs` (a `HashSet` in Rust, modelled by a
list whose membership is the set membership). -/
def table_values : Table → List Value
  | [] => []
  | (a, some d) :: rest => a.value :: d.value :: table_values rest
  | (a, none) :: rest => a.value :: table_values rest

/-- `Table::is_full` from `src/card.rs`. -/
def Table.is_full (t : Table) : Bool := HAND_SIZE ≤ t.length

/-- `Hand::remove` from `src/card.rs`: `retain(|c| c != card)` keeps every
card different from `card`.  Note: it does NOT check that `card` was
present; removing an absent card is a silent no-op. -/
def Hand.remove (card : Card) (h : Hand) : Hand :=
  h.filter (fun c => c ≠ card)

/-- `Hand::acceptable_moves` from `src/card.rs`. -/
def acceptable_moves (h : Hand) (table : Table) (trump : Suit) : List Card :=
  let result :=
    match table.getLast? with
    | some last =>
      if last.2.isSome then
        h.filter (fun c => c.value ∈ table_values table)
      else
        h.filter (fun c => Card.beats c last.1 trump)
    | none => h
  sort_by_compare trump result

/-- `Hand::attack_with` from `src/card.rs`.  The `assert!(table.cards.len()
< HAND_SIZE)` is modelled by returning `none` (fatal) when it fails.
Returns the new hand and the new table. -/
def attack_with (card : Card) (h : Hand) (table : Table) : Option (Hand × Table) :=
  if table.length < HAND_SIZE then
    some (Hand.remove card h, table ++ [(card, none)])
  else
    none

/-- `Hand::defend_with` from `src/card.rs`: pops the last slot (fatal when
the table is empty), asserts it is still open (fatal otherwise), removes
the card from the hand and closes the slot with it. -/
def defend_with (card : Card) (h : Hand) (table : Table) : Option (Hand × Table) :=
  match table.getLast? with
  | none => none
  | some last =>
    match last.2 with
    | some _ => none
    | none => some (Hand.remove card h, table.dropLast ++ [(last.1, some card)])

/-- The `while` loop of `Hand::draw_from`: while the hand holds fewer than
`HAND_SIZE` cards and the deck is non-empty, draw (`Vec::pop`, i.e. the
deck's last card) and push it onto the hand. -/
def draw_loop (hand : Hand) (deck : List Card) : Hand × List Card :=
  if hand.length < HAND_SIZE then
    if hne : deck = [] then (hand, deck)
    else
      have : deck.dropLast.length < deck.length := by
        rw [List.length_dropLast]
        have : 0 < deck.length := List.length_pos.mpr hne
        omega
      draw_loop (hand ++ [deck.getLast hne]) deck.dropLast
  else (hand, deck)
termination_by deck.length

/-- `Hand::draw_from` from `src/card.rs`: the draw loop followed by
`sort_unstable`.  Returns the new hand and the remaining deck. -/
def draw_from (hand : Hand) (deck : List Card) : Hand × List Card :=
  (sort_hand (draw_loop hand deck).1, (draw_loop hand deck).2)

/-- `Hand::take_from` from `src/card.rs`: drain the whole table into the
hand (attack card then defense card per slot), then `sort_unstable`. -/
def take_from (h : Hand) (table : Table) : Hand :=
  sort_hand (h ++ flatten_table table)

/-- `Winner` from `src/game.rs`. -/
inductive Winner : Type
  | Player
  | Computer
  | Tie
deriving DecidableEq, Fintype

/-- `Action` from `src/game.rs`. -/
inductive Action : Type
  | Play (card : Card)
  | EndTurn
deriving DecidableEq

/-- `Response` from `src/game.rs`. -/
inductive Response : Type
  | Play (card : Card)
  | Take
  | EndTurn
  | GameOver (w : Winner)
deriving DecidableEq

/-- `Game` from `src/game.rs`.  The Rust `Deck` struct is inlined: `deck`
is its card list (drawn from the back) and `trump` its trump suit, which
never changes after `Game::new`. -/
structure Game : Type where
  deck : List Card
  trump : Suit
  discard : List Card
  player : Hand
  computer : Hand
  players_turn : Bool
  table : Table
deriving DecidableEq

/-- `Game::winner` from `src/game.rs`. -/
def winner (g : Game) : Option Winner :=
  if g.deck.isEmpty then
    if g.player.isEmpty then
      some (if g.computer.isEmpty then Winner.Tie else Winner.Player)
    else if g.computer.isEmpty then
      some Winner.Computer
    else
      none
  else
    none

/-- `Game::is_valid_move` from `src/game.rs` (`Vec::contains` is the
decidable membership test). -/
def is_valid_move (g : Game) (card : Card) : Bool :=
  if g.players_turn && (g.table.is_full || g.computer.isEmpty) then
    false
  else
    decide (card ∈ acceptable_moves g.player g.table g.trump)

/-- `AI::plan_attack` from `src/ai.rs`: first acceptable move of the
computer's hand, if any. -/
def ai_plan_attack (g : Game) : Option Card :=
  (acceptable_moves g.computer g.table g.trump).head?

/-- `AI::plan_defense` from `src/ai.rs`: identical to `AI::plan_attack`
(the table's last slot being open makes `acceptable_moves` compute
defenses instead of attacks). -/
def ai_plan_defense (g : Game) : Option Card :=
  (acceptable_moves g.computer g.table g.trump).head?

/-- `Game::discard_table` from `src/game.rs`: drain the table into the
discard pile (attack card then defense card per slot). -/
def discard_table (g : Game) : Game :=
  { g with discard := g.discard ++ flatten_table g.table, table := [] }

/-- `Game::start_attack` from `src/game.rs`.  The
`.expect("Attack impossible on first move")` is the `none` on a policy
non-answer; `attack_with` contributes its own fatal case. -/
def start_attack (g : Game) : Option (Game × Response) :=
  match ai_plan_attack g with
  | none => none
  | some attack =>
    (attack_with attack g.computer g.table).map
      (fun p => ({ g with computer := p.1, table := p.2 }, Response.Play attack))

/-- `Game::defend` from `src/game.rs`: the human attacks with `attack`,
the computer defends (or takes).  The leading `assert!` statements and the
fatal cases of the hand operations are the `none` results. -/
def defend (g : Game) (attack : Card) : Option (Game × Response) :=
  if g.players_turn = false then none
  else if g.table.is_full then none
  else
    match attack_with attack g.player g.table with
    | none => none
    | some p =>
      let g1 : Game := { g with player := p.1, table := p.2 }
      let step : Option (Game × Response) :=
        match ai_plan_defense g1 with
        | some response =>
          (defend_with response g1.computer g1.table).map
            (fun q => ({ g1 with computer := q.1, table := q.2 }, Response.Play response))
        | none =>
          let c1 := take_from g1.computer g1.table
          let cd := draw_from c1 g1.deck
          let pd := draw_from g1.player cd.2
          some ({ g1 with computer := cd.1, player := pd.1, deck := pd.2, table := [] },
                Response.Take)
      step.map (fun r =>
        match winner r.1 with
        | some w => (r.1, Response.GameOver w)
        | none => r)

/-- `Game::switch_turn` from `src/game.rs`: the human finishes the attack;
both hands draw (attacker first), win check, then control flips, the table
is discarded and the computer opens a new attack. -/
def switch_turn (g : Game) : Option (Game × Response) :=
  if g.players_turn = false then none
  else
    let pd := draw_from g.player g.deck
    let cd := draw_from g.computer pd.2
    let g1 : Game := { g with player := pd.1, computer := cd.1, deck := cd.2 }
    match winner g1 with
    | some w => some (g1, Response.GameOver w)
    | none => start_attack (discard_table { g1 with players_turn := false })

/-- `Game::plan_attack` from `src/game.rs`: the human defends with
`last_defense`; the computer either extends the attack or yields. -/
def plan_attack (g : Game) (last_defense : Card) : Option (Game × Response) :=
  if g.players_turn = true then none
  else
    match defend_with last_defense g.player g.table with
    | none => none
    | some p =>
      let g1 : Game := { g with player := p.1, table := p.2 }
      if g1.table.is_full then
        let cd := draw_from g1.computer g1.deck
        let pd := draw_from g1.player cd.2
        let g2 : Game := { g1 with computer := cd.1, player := pd.1, deck := pd.2 }
        match winner g2 with
        | some w => some (g2, Response.GameOver w)
        | none => some (discard_table { g2 with players_turn := true }, Response.EndTurn)
      else
        match winner g1 with
        | some w => some (g1, Response.GameOver w)
        | none =>
          match ai_plan_attack g1 with
          | some attack =>
            (attack_with attack g1.computer g1.table).map
              (fun q => ({ g1 with computer := q.1, table := q.2 }, Response.Play attack))
          | none =>
            let g2 := discard_table { g1 with players_turn := true }
            let cd := draw_from g2.computer g2.deck
            let pd := draw_from g2.player cd.2
            some ({ g2 with computer := cd.1, player := pd.1, deck := pd.2 },
                  Response.EndTurn)

/-- `Game::player_took_cards` from `src/game.rs`: the human absorbs the
table, the computer refills and opens a new attack. -/
def player_took_cards (g : Game) : Option (Game × Response) :=
  if g.players_turn = true then none
  else
    let p1 := take_from g.player g.table
    let cd := draw_from g.computer g.deck
    let g1 : Game := { g with player := p1, computer := cd.1, deck := cd.2, table := [] }
    match winner g1 with
    | some w => some (g1, Response.GameOver w)
    | none => start_attack g1

/-- `Game::player_action` from `src/game.rs`: the single action-driven
transition function. -/
def player_action (g : Game) (a : Action) : Option (Game × Response) :=
  if g.players_turn then
    match a with
    | .Play card => defend g card
    | .EndTurn => switch_turn g
  else
    match a with
    | .Play card => plan_attack g card
    | .EndTurn => player_took_cards g

/-- `Game::new` from `src/game.rs`, parametrised by the shuffled card list
(`Deck::new` shuffles `full_deck`; randomness is an external input here)
and the coin flip for who starts.  The trump is the suit of the first card
of the shuffled deck; the `getD` default is never taken for a non-empty
deck (a 36-card shuffle).  Each hand then draws six cards in turn. -/
def Game.new (cards : List Card) (pturn : Bool) : Game :=
  let trump := (cards.head?.map Card.suit).getD Suit.Clubs
  let pd := draw_from [] cards
  let cd := draw_from [] pd.2
  { deck := cd.2
    trump := trump
    discard := []
    player := pd.1
    computer := cd.1
    players_turn := pturn
    table := [] }

/-- The hypothesis of claim C1 on an action: an `Action::Play` must pass
`Game::is_valid_move`; `Action::EndTurn` is unrestricted. -/
def valid_action (g : Game) : Action → Prop
  | .Play card => is_valid_move g card = true
  | .EndTurn => True

/-- States reachable from `Game::new` (on some shuffle of the full deck)
by `player_action` calls whose `Play` actions pass `is_valid_move`. -/
inductive Reachable : Game → Prop
  | init (cards : List Card) (pturn : Bool) (hperm : cards.Perm full_deck) :
      Reachable (Game.new cards pturn)
  | step (g : Game) (a : Action) (g2 : Game) (r : Response)
      (hg : Reachable g) (hv : valid_action g a)
      (hstep : player_action g a = some (g2, r)) : Reachable g2

/-- All cards of a game state, every container included: deck, player hand,
computer hand, table (attack and defense cards) and discard pile. -/
def all_cards (g : Game) : List Card :=
  g.deck ++ g.player ++ g.computer ++ flatten_table g.table ++ g.discard

/-- Numeric key characterising `Card::compare` under trump `t`: trump
cards sit above all others, then rank decides.  (Proof device, not part
of the source.) -/
def card_key (t : Suit) (c : Card) : Nat :=
  (if c.suit = t then 9 else 0) + c.value.idx

/-! ### Basic facts -/

theorem full_deck_length : full_deck.length = 36 := by decide

theorem full_deck_nodup : full_deck.Nodup := by decide

/-! ### The move comparator is a total preorder -/

theorem compare_gt_iff : ∀ (a b : Card) (t : Suit),
    Card.compare a b t = Ordering.gt ↔ card_key t b < card_key t a := by decide

theorem compare_le_iff_key (t : Suit) (a b : Card) :
    compare_le t a b = true ↔ card_key t a ≤ card_key t b := by
  unfold compare_le
  simp [compare_gt_iff, Nat.not_lt]

theorem compare_le_trans (tr : Suit) (a b c : Card)
    (hab : compare_le tr a b = true) (hbc : compare_le tr b c = true) :
    compare_le tr a c = true := by
  rw [compare_le_iff_key] at hab hbc ⊢
  omega

theorem compare_le_total (tr : Suit) (a b : Card) :
    (compare_le tr a b || compare_le tr b a) = true := by
  rw [Bool.or_eq_true, compare_le_iff_key, compare_le_iff_key]
  omega

/-! ### Sorting helpers -/

theorem sort_hand_perm (h : Hand) : (sort_hand h).Perm h :=
  List.mergeSort_perm h card_le

theorem sort_hand_eq_nil {h : Hand} (hs : sort_hand h = []) : h = [] := by
  have hl := (sort_hand_perm h).length_eq
  rw [hs] at hl
  exact List.length_eq_zero.mp hl.symm

theorem sort_by_compare_perm (tr : Suit) (l : List Card) :
    (sort_by_compare tr l).Perm l :=
  List.mergeSort_perm l (compare_le tr)

theorem mem_sort_by_compare {tr : Suit} {l : List Card} {c : Card} :
    c ∈ sort_by_compare tr l ↔ c ∈ l :=
  (sort_by_compare_perm tr l).mem_iff

theorem sort_by_compare_eq_nil {tr : Suit} {l : List Card}
    (hs : sort_by_compare tr l = []) : l = [] := by
  have hl := (sort_by_compare_perm tr l).length_eq
  rw [hs] at hl
  exact List.length_eq_zero.mp hl.symm

/-! ### Drawing from the deck -/

theorem draw_loop_perm (hand deck : List Card) :
    ((draw_loop hand deck).1 ++ (draw_loop hand deck).2).Perm (hand ++ deck) := by
  induction hand, deck using draw_loop.induct with
  | case1 hand hlt => rw [draw_loop]; simp [hlt]
  | case2 hand deck hlt hne hdec ih =>
    rw [draw_loop, if_pos hlt, dif_neg hne]
    refine ih.trans ?_
    rw [List.append_assoc]
    have h2 : (hand ++ ([deck.getLast hne] ++ deck.dropLast)).Perm
        (hand ++ (deck.dropLast ++ [deck.getLast hne])) :=
      List.Perm.append_left _ List.perm_append_comm
    rw [List.dropLast_append_getLast hne] at h2
    exact h2
  | case3 hand deck hge => rw [draw_loop, if_neg hge]

theorem draw_loop_fst_nil (hand deck : List Card)
    (h : (draw_loop hand deck).1 = []) : (draw_loop hand deck).2 = [] := by
  induction hand, deck using draw_loop.induct with
  | case1 hand hlt => rw [draw_loop] at h ⊢; simp [hlt] at h ⊢
  | case2 hand deck hlt hne hdec ih =>
    rw [draw_loop, if_pos hlt, dif_neg hne] at h ⊢
    exact ih h
  | case3 hand deck hge =>
    rw [draw_loop, if_neg hge] at h
    simp only [] at h
    exfalso
    apply hge
    rw [h]
    simp [HAND_SIZE]

theorem draw_from_perm (hand deck : List Card) :
    ((draw_from hand deck).1 ++ (draw_from hand deck).2).Perm (hand ++ deck) := by
  unfold draw_from
  exact ((sort_hand_perm _).append (List.Perm.refl _)).trans (draw_loop_perm hand deck)

theorem draw_from_fst_nil {hand deck : List Card}
    (h : (draw_from hand deck).1 = []) : (draw_from hand deck).2 = [] := by
  unfold draw_from at h ⊢
  exact draw_loop_fst_nil hand deck (sort_hand_eq_nil h)

theorem draw_from_ms (hand deck : List Card) :
    (↑(draw_from hand deck).1 + ↑(draw_from hand deck).2 : Multiset Card) =
      ↑hand + ↑deck := by
  rw [Multiset.coe_add, Multiset.coe_add]
  exact Multiset.coe_eq_coe.mpr (draw_from_perm hand deck)

/-! ### Removing a card, taking and flattening the table -/

theorem remove_perm {h : Hand} {c : Card} (hn : h.Nodup) (hc : c ∈ h) :
    (c :: Hand.remove c h).Perm h := by
  have hfe : Hand.remove c h = h.erase c := by
    rw [List.Nodup.erase_eq_filter hn c]
    unfold Hand.remove
    apply List.filter_congr
    intro x _
    by_cases hxc : x = c <;> simp [hxc]
  rw [hfe]
  exact (List.perm_cons_erase hc).symm

theorem remove_ms {h : Hand} {c : Card} (hn : h.Nodup) (hc : c ∈ h) :
    ({c} + ↑(Hand.remove c h) : Multiset Card) = ↑h := by
  have hp := Multiset.coe_eq_coe.mpr (remove_perm hn hc)
  rw [← Multiset.cons_coe] at hp
  rw [Multiset.singleton_add]
  exact hp

theorem flatten_table_append (t1 t2 : Table) :
    flatten_table (t1 ++ t2) = flatten_table t1 ++ flatten_table t2 := by
  induction t1 with
  | nil => rfl
  | cons s rest ih =>
    rcases s with ⟨a, d⟩
    cases d <;> simp [flatten_table, ih]

theorem take_from_ms (h : Hand) (t : Table) :
    (↑(take_from h t) : Multiset Card) = ↑h + ↑(flatten_table t) := by
  unfold take_from
  rw [Multiset.coe_add]
  exact Multiset.coe_eq_coe.mpr (sort_hand_perm _)

/-! ### Inversion of the fallible hand operations -/

theorem attack_with_eq {c : Card} {h : Hand} {t : Table} {p : Hand × Table}
    (ha : attack_with c h t = some p) :
    t.length < HAND_SIZE ∧ p = (Hand.remove c h, t ++ [(c, none)]) := by
  unfold attack_with at ha
  by_cases hlen : t.length < HAND_SIZE
  · rw [if_pos hlen] at ha
    injection ha with ha
    exact ⟨hlen, ha.symm⟩
  · rw [if_neg hlen] at ha
    cases ha

theorem defend_with_eq {c : Card} {h : Hand} {t : Table} {p : Hand × Table}
    (hd : defend_with c h t = some p) :
    ∃ (t0 : Table) (a : Card), t = t0 ++ [(a, none)] ∧
      p = (Hand.remove c h, t0 ++ [(a, some c)]) := by
  unfold defend_with at hd
  cases hL : t.getLast? with
  | none => rw [hL] at hd; cases hd
  | some last =>
    rw [hL] at hd
    rcases last with ⟨a, d⟩
    cases d with
    | some x => cases hd
    | none =>
      injection hd with hd
      have hne : t ≠ [] := by
        intro h0
        rw [h0] at hL
        cases hL
      refine ⟨t.dropLast, a, ?_, hd.symm⟩
      have hg : t.getLast hne = (a, none) := by
        have h1 := List.getLast?_eq_getLast t hne
        rw [hL] at h1
        injection h1 with h1
        exact h1.symm
      rw [← hg]
      exact (List.dropLast_append_getLast hne).symm

/-! ### Claim theorems: the card comparison layer -/

/-- C5: `Card::beats a b trump` is true iff `a` and `b` share a suit and
`a` has the strictly higher rank, or `a` is trump and `b` is not; it is
irreflexive and a trump card beats every non-trump card. -/
theorem C5_beats_spec : ∀ (a b : Card) (t : Suit),
    (Card.beats a b t = true ↔
      ((a.suit = b.suit ∧ b.value.idx < a.value.idx) ∨ (a.suit = t ∧ b.suit ≠ t))) ∧
    Card.beats a a t = false ∧
    (a.suit = t → b.suit ≠ t → Card.beats a b t = true) := by decide

theorem C5_beats_spec_witness :
    Card.beats ⟨Suit.Spades, Value.Six⟩ ⟨Suit.Hearts, Value.Ace⟩ Suit.Spades = true :=
  (C5_beats_spec ⟨Suit.Spades, Value.Six⟩ ⟨Suit.Hearts, Value.Ace⟩ Suit.Spades).2.2 rfl
    (by decide)

/-- C6 (counterexample): `Card::compare` returns `Equal` on two distinct
cards — two non-trump cards of equal rank in different suits — so it is
not true that compare never returns Equal for distinct cards. -/
theorem C6_compare_counterexample :
    Card.compare ⟨Suit.Diamonds, Value.Six⟩ ⟨Suit.Hearts, Value.Six⟩ Suit.Spades =
      Ordering.eq ∧
    (⟨Suit.Diamonds, Value.Six⟩ : Card) ≠ ⟨Suit.Hearts, Value.Six⟩ := by decide

/-- C6 (amended): `Card::compare` under any trump is a deterministic total
preorder: every comparison is gt, lt or eq; swapping the arguments swaps
the outcome; any trump card ranks above any non-trump card; same-suit
cards rank by rank; two non-trump cards rank by rank alone — and a rank
tie between two non-trump cards yields `Equal` (ties are NOT broken), so
`compare` can return `Equal` on distinct cards. -/
theorem C6_compare_preorder : ∀ (a b : Card) (t : Suit),
    (Card.compare a b t = Ordering.gt ∨ Card.compare a b t = Ordering.lt ∨
      Card.compare a b t = Ordering.eq) ∧
    Card.compare b a t = (Card.compare a b t).swap ∧
    (a.suit = t → b.suit ≠ t → Card.compare a b t = Ordering.gt) ∧
    (a.suit = b.suit → Card.compare a b t = Ord.compare a.value.idx b.value.idx) ∧
    (a.suit ≠ t → b.suit ≠ t → Card.compare a b t = Ord.compare a.value.idx b.value.idx) ∧
    (Card.compare a b t = Ordering.eq ↔ ((a.suit = t ↔ b.suit = t) ∧ a.value = b.value)) := by
  decide

theorem C6_compare_preorder_witness :
    Card.compare ⟨Suit.Spades, Value.Six⟩ ⟨Suit.Hearts, Value.Ace⟩ Suit.Spades =
      Ordering.gt :=
  (C6_compare_preorder ⟨Suit.Spades, Value.Six⟩ ⟨Suit.Hearts, Value.Ace⟩ Suit.Spades).2.2.1
    rfl (by decide)

/-! ### Claim theorems: hand operations -/

/-- C7 (counterexample): `Hand::attack_with` with a card that is NOT in
the hand, on a table with fewer than 6 slots, completes normally (it does
not hit any fatal check): the `retain`-based removal silently does
nothing and the card still lands on the table. -/
theorem C7_counterexample :
    (⟨Suit.Hearts, Value.Six⟩ : Card) ∉ ([⟨Suit.Clubs, Value.Seven⟩] : Hand) ∧
    ([] : Table).length < HAND_SIZE ∧
    attack_with ⟨Suit.Hearts, Value.Six⟩ [⟨Suit.Clubs, Value.Seven⟩] [] =
      some ([⟨Suit.Clubs, Value.Seven⟩], [(⟨Suit.Hearts, Value.Six⟩, none)]) := by decide

/-- C7 (amended): playing a card that is not in the acting hand is NOT a
fatal error: for every hand `h`, card `c` not in `h`, and table with
fewer than 6 slots, `attack_with` completes normally, leaving the hand
unchanged (the removal is a silent no-op) and appending the card as a new
open slot. -/
theorem C7_amended_silent_noop : ∀ (h : Hand) (c : Card) (t : Table),
    c ∉ h → t.length < HAND_SIZE →
    attack_with c h t = some (h, t ++ [(c, none)]) := by
  intro h c t hc ht
  unfold attack_with
  rw [if_pos ht]
  have hrm : Hand.remove c h = h := by
    unfold Hand.remove
    refine List.filter_eq_self.mpr (fun a ha => ?_)
    have hne : a ≠ c := fun he => hc (he ▸ ha)
    simp [hne]
  rw [hrm]

theorem C7_amended_silent_noop_witness :
    attack_with ⟨Suit.Hearts, Value.Six⟩ [⟨Suit.Clubs, Value.Seven⟩] [] =
      some ([⟨Suit.Clubs, Value.Seven⟩], [(⟨Suit.Hearts, Value.Six⟩, none)]) :=
  C7_amended_silent_noop [⟨Suit.Clubs, Value.Seven⟩] ⟨Suit.Hearts, Value.Six⟩ []
    (by decide) (by decide)

/-- C10: `Hand::defend_with` never checks defense legality: whenever the
last table slot is open, it closes that slot with the supplied card and
removes the card from the hand, with no `beats` requirement anywhere —
in particular this equation holds even for a card that does not beat the
slot's attack card under the trump. -/
theorem C10_defend_with_no_beats_check : ∀ (h : Hand) (c : Card) (t : Table) (a : Card),
    defend_with c h (t ++ [(a, none)]) = some (Hand.remove c h, t ++ [(a, some c)]) := by
  intro h c t a
  unfold defend_with
  rw [List.getLast?_concat]
  simp [List.dropLast_concat]

/-! ### Claim theorems: win detection -/

/-- C2: `Game::winner` returns `None` whenever the deck is non-empty;
with an empty deck it returns Tie when both hands are empty, Player when
only the player's hand is empty, Computer when only the computer's hand
is empty, and None when both hands are non-empty. -/
theorem C2_winner_spec : ∀ g : Game,
    (g.deck ≠ [] → winner g = none) ∧
    (g.deck = [] → g.player = [] → g.computer = [] → winner g = some Winner.Tie) ∧
    (g.deck = [] → g.player = [] → g.computer ≠ [] → winner g = some Winner.Player) ∧
    (g.deck = [] → g.computer = [] → g.player ≠ [] → winner g = some Winner.Computer) ∧
    (g.deck = [] → g.player ≠ [] → g.computer ≠ [] → winner g = none) := by
  intro g
  refine ⟨?_, ?_, ?_, ?_, ?_⟩
  · intro h1; simp [winner, List.isEmpty_iff, h1]
  · intro h1 h2 h3; simp [winner, List.isEmpty_iff, h1, h2, h3]
  · intro h1 h2 h3; simp [winner, List.isEmpty_iff, h1, h2, h3]
  · intro h1 h2 h3; simp [winner, List.isEmpty_iff, h1, h2, h3]
  · intro h1 h2 h3; simp [winner, List.isEmpty_iff, h1, h2, h3]

theorem C2_winner_spec_witness :
    winner { deck := [⟨Suit.Clubs, Value.Six⟩], trump := Suit.Clubs, discard := [],
             player := [], computer := [], players_turn := true, table := [] } = none :=
  (C2_winner_spec _).1 (by decide)

/-- C3 (counterexample): with an empty deck, an empty human hand and a
non-empty computer hand, `Game::winner` returns `Player` (the human
emptied their hand first and wins), not `Computer` as the claim states. -/
theorem C3_counterexample :
    winner { deck := [], trump := Suit.Spades, discard := [], player := [],
             computer := [⟨Suit.Hearts, Value.Six⟩], players_turn := true,
             table := [] } = some Winner.Player ∧
    winner { deck := [], trump := Suit.Spades, discard := [], player := [],
             computer := [⟨Suit.Hearts, Value.Six⟩], players_turn := true,
             table := [] } ≠ some Winner.Computer := by decide

/-- C3 (amended): for every game state in which the deck holds exactly 0
cards, the human (player) hand is empty, and the computer hand is
non-empty, `winner()` returns Player. -/
theorem C3_amended_player_wins : ∀ g : Game,
    g.deck = [] → g.player = [] → g.computer ≠ [] → winner g = some Winner.Player := by
  intro g h1 h2 h3
  simp [winner, List.isEmpty_iff, h1, h2, h3]

theorem C3_amended_player_wins_witness :
    winner { deck := [], trump := Suit.Spades, discard := [], player := [],
             computer := [⟨Suit.Hearts, Value.Six⟩], players_turn := true,
             table := [] } = some Winner.Player :=
  C3_amended_player_wins _ rfl rfl (by decide)

/-! ### Acceptable moves -/

theorem acceptable_moves_nil (h : Hand) (tr : Suit) :
    acceptable_moves h [] tr = sort_by_compare tr h := rfl

theorem acceptable_moves_open (h : Hand) (t : Table) (a : Card) (tr : Suit) :
    acceptable_moves h (t ++ [(a, none)]) tr =
      sort_by_compare tr (h.filter (fun c => Card.beats c a tr)) := by
  unfold acceptable_moves
  rw [List.getLast?_concat]
  simp

theorem acceptable_moves_closed (h : Hand) (t : Table) (a d : Card) (tr : Suit) :
    acceptable_moves h (t ++ [(a, some d)]) tr =
      sort_by_compare tr
        (h.filter (fun c => c.value ∈ table_values (t ++ [(a, some d)]))) := by
  unfold acceptable_moves
  rw [List.getLast?_concat]
  simp

theorem acceptable_moves_subset {h : Hand} {t : Table} {tr : Suit} {c : Card}
    (hm : c ∈ acceptable_moves h t tr) : c ∈ h := by
  unfold acceptable_moves at hm
  rw [mem_sort_by_compare] at hm
  cases hL : t.getLast? with
  | none => rw [hL] at hm; exact hm
  | some last =>
    rw [hL] at hm
    simp only [] at hm
    by_cases hd : last.2.isSome = true
    · rw [if_pos hd] at hm; exact (List.mem_filter.mp hm).1
    · rw [if_neg hd] at hm; exact (List.mem_filter.mp hm).1

theorem ai_plan_attack_mem {g : Game} {a : Card} (hp : ai_plan_attack g = some a) :
    a ∈ g.computer := by
  unfold ai_plan_attack at hp
  exact acceptable_moves_subset (List.mem_of_mem_head? hp)

theorem ai_plan_defense_mem {g : Game} {a : Card} (hp : ai_plan_defense g = some a) :
    a ∈ g.computer := by
  unfold ai_plan_defense at hp
  exact acceptable_moves_subset (List.mem_of_mem_head? hp)

theorem is_valid_move_mem {g : Game} {c : Card}
    (hv : is_valid_move g c = true) : c ∈ g.player := by
  unfold is_valid_move at hv
  by_cases hb : (g.players_turn && (g.table.is_full || g.computer.isEmpty)) = true
  · rw [if_pos hb] at hv; cases hv
  · rw [if_neg hb] at hv
    exact acceptable_moves_subset (of_decide_eq_true hv)

/-! ### Win detection helpers -/

theorem winner_none_of_deck_ne {g : Game} (hd : g.deck ≠ []) : winner g = none := by
  simp [winner, List.isEmpty_iff, hd]

theorem winner_none_computer_ne {g : Game} (hw : winner g = none)
    (hd : g.deck = []) : g.computer ≠ [] := by
  intro hc
  rw [winner, hd, hc] at hw
  rcases hp : g.player with _ | ⟨x, xs⟩ <;> rw [hp] at hw <;> simp at hw

/-! ### The computed opening attack always exists (claim C9 support) -/

theorem start_attack_isSome {g : Game} (ht : g.table = []) (hc0 : g.computer ≠ []) :
    (start_attack g).isSome = true := by
  unfold start_attack
  cases hp : ai_plan_attack g with
  | some a =>
    unfold attack_with
    rw [ht]
    simp [HAND_SIZE]
  | none =>
    exfalso
    unfold ai_plan_attack at hp
    rw [ht, acceptable_moves_nil] at hp
    rw [List.head?_eq_none_iff] at hp
    exact hc0 (sort_by_compare_eq_nil hp)

/-! ### Claim theorems: move legality and the opening attack -/

/-- C8: while it is the human's turn to attack, `is_valid_move` rejects
every card once the table holds 6 slots or the computer hand is empty;
in every other situation (including defense) it accepts exactly the
members of the player's `acceptable_moves`. -/
theorem C8_is_valid_move_spec : ∀ (g : Game) (c : Card),
    (g.players_turn = true → (HAND_SIZE ≤ g.table.length ∨ g.computer = []) →
      is_valid_move g c = false) ∧
    (¬(g.players_turn = true ∧ (HAND_SIZE ≤ g.table.length ∨ g.computer = [])) →
      (is_valid_move g c = true ↔ c ∈ acceptable_moves g.player g.table g.trump)) := by
  intro g c
  constructor
  · intro h1 h2
    unfold is_valid_move
    have hb : (g.players_turn && (g.table.is_full || g.computer.isEmpty)) = true := by
      rcases h2 with h2 | h2 <;> simp [h1, Table.is_full, List.isEmpty_iff, h2]
    rw [if_pos hb]
  · intro h1
    unfold is_valid_move
    cases hpt : g.players_turn with
    | false => simp [hpt]
    | true =>
      have h2 : ¬(HAND_SIZE ≤ g.table.length ∨ g.computer = []) := fun hx => h1 ⟨hpt, hx⟩
      push_neg at h2
      simp [Table.is_full, List.isEmpty_iff, h2.1, h2.2]

theorem C8_is_valid_move_spec_witness :
    is_valid_move { deck := [], trump := Suit.Spades, discard := [],
                    player := [⟨Suit.Clubs, Value.Six⟩], computer := [],
                    players_turn := true, table := [] } ⟨Suit.Clubs, Value.Six⟩ = false :=
  (C8_is_valid_move_spec _ _).1 rfl (Or.inr rfl)

/-- C4: for a duplicate-free hand, `acceptable_moves` is duplicate-free,
sorted ascending under `Card::compare`, and contains: the whole hand when
the table is empty; exactly the held cards beating the open attack when
the last slot is undefended; exactly the held cards whose rank is already
on the table when the last slot is defended. -/
theorem C4_acceptable_moves_spec : ∀ (h : Hand) (t : Table) (tr : Suit),
    h.Nodup →
    (acceptable_moves h t tr).Nodup ∧
    List.Pairwise (fun a b => compare_le tr a b = true) (acceptable_moves h t tr) ∧
    (t = [] → ∀ c, c ∈ acceptable_moves h t tr ↔ c ∈ h) ∧
    (∀ t0 a, t = t0 ++ [(a, none)] →
      ∀ c, c ∈ acceptable_moves h t tr ↔ c ∈ h ∧ Card.beats c a tr = true) ∧
    (∀ t0 a d, t = t0 ++ [(a, some d)] →
      ∀ c, c ∈ acceptable_moves h t tr ↔ c ∈ h ∧ c.value ∈ table_values t) := by
  intro h t tr hn
  have hpre : ∀ l : List Card, l.Nodup → (sort_by_compare tr l).Nodup :=
    fun l hl => ((sort_by_compare_perm tr l).symm).nodup hl
  refine ⟨?_, ?_, ?_, ?_, ?_⟩
  · unfold acceptable_moves
    cases hL : t.getLast? with
    | none => exact hpre _ hn
    | some last =>
      simp only []
      by_cases hd : last.2.isSome = true
      · rw [if_pos hd]; exact hpre _ (hn.filter _)
      · rw [if_neg hd]; exact hpre _ (hn.filter _)
  · unfold acceptable_moves sort_by_compare
    exact List.sorted_mergeSort (compare_le_trans tr) (compare_le_total tr) _
  · intro ht c
    subst ht
    rw [acceptable_moves_nil, mem_sort_by_compare]
  · intro t0 a ht c
    subst ht
    rw [acceptable_moves_open, mem_sort_by_compare, List.mem_filter]
  · intro t0 a d ht c
    subst ht
    rw [acceptable_moves_closed, mem_sort_by_compare, List.mem_filter]
    simp

theorem C4_acceptable_moves_spec_witness :
    (⟨Suit.Clubs, Value.Six⟩ : Card) ∈
      acceptable_moves [⟨Suit.Clubs, Value.Six⟩] [] Suit.Spades :=
  ((C4_acceptable_moves_spec [⟨Suit.Clubs, Value.Six⟩] [] Suit.Spades (by decide)).2.2.1
    rfl ⟨Suit.Clubs, Value.Six⟩).mpr (by decide)

/-- C9: the fatal `expect` in `Game::start_attack` is unreachable from its
two in-game call sites: for EVERY state on which `switch_turn` or
`player_took_cards` runs (the dispatch of `player_action` supplies the
matching turn flag), the call completes without any fatal failure — in
particular, whenever they reach `start_attack` the table has just been
cleared and the computer hand is non-empty, so the opponent policy finds
an opening move. -/
theorem C9_opening_attack_succeeds : ∀ g : Game,
    (g.players_turn = true → (switch_turn g).isSome = true) ∧
    (g.players_turn = false → (player_took_cards g).isSome = true) := by
  intro g
  constructor
  · intro hpt
    unfold switch_turn
    rw [if_neg (by simp [hpt])]
    simp only []
    split
    · rfl
    · next hw =>
      apply start_attack_isSome rfl
      intro hc
      simp only [discard_table] at hc
      have hdeck : (draw_from g.computer (draw_from g.player g.deck).2).2 = [] :=
        draw_from_fst_nil hc
      exact winner_none_computer_ne hw hdeck hc
  · intro hpt
    unfold player_took_cards
    rw [if_neg (by simp [hpt])]
    simp only []
    split
    · rfl
    · next hw =>
      apply start_attack_isSome rfl
      intro hc
      have hdeck : (draw_from g.computer g.deck).2 = [] := draw_from_fst_nil hc
      exact winner_none_computer_ne hw hdeck hc

theorem C9_opening_attack_succeeds_witness :
    (switch_turn { deck := [], trump := Suit.Spades, discard := [],
                   player := [⟨Suit.Clubs, Value.Six⟩],
                   computer := [⟨Suit.Hearts, Value.Seven⟩],
                   players_turn := true, table := [] }).isSome = true :=
  (C9_opening_attack_succeeds _).1 rfl

/-! ### Card conservation (claim C1 support) -/

theorem all_cards_ms (g : Game) : (↑(all_cards g) : Multiset Card) =
    ↑g.deck + ↑g.player + ↑g.computer + ↑(flatten_table g.table) + ↑g.discard := by
  unfold all_cards
  rw [Multiset.coe_add, Multiset.coe_add, Multiset.coe_add, Multiset.coe_add]

theorem start_attack_ms {g g2 : Game} {r : Response}
    (hn : g.computer.Nodup)
    (hs : start_attack g = some (g2, r)) :
    (↑(all_cards g2) : Multiset Card) = ↑(all_cards g) := by
  unfold start_attack at hs
  cases hp : ai_plan_attack g with
  | none => rw [hp] at hs; cases hs
  | some a =>
    rw [hp] at hs
    simp only [] at hs
    cases haw : attack_with a g.computer g.table with
    | none => rw [haw] at hs; cases hs
    | some p =>
      rw [haw] at hs
      obtain ⟨hlen, rfl⟩ := attack_with_eq haw
      injection hs with hs
      simp only [] at hs
      have hg2 : g2 = { g with computer := Hand.remove a g.computer,
                               table := g.table ++ [(a, none)] } :=
        (congrArg Prod.fst hs).symm
      subst hg2
      have hmem : a ∈ g.computer := ai_plan_attack_mem hp
      rw [all_cards_ms, all_cards_ms]
      simp only [flatten_table_append, flatten_table]
      simp only [← Multiset.coe_add, Multiset.coe_singleton]
      rw [← remove_ms hn hmem]
      abel

theorem all_cards_nodup_parts {g : Game}
    (h : (↑(all_cards g) : Multiset Card) = ↑full_deck) :
    g.player.Nodup ∧ g.computer.Nodup := by
  have hn : (all_cards g).Nodup := by
    have h2 : (↑(all_cards g) : Multiset Card).Nodup := by
      rw [h]
      exact Multiset.coe_nodup.mpr full_deck_nodup
    exact Multiset.coe_nodup.mp h2
  unfold all_cards at hn
  constructor
  · exact hn.of_append_left.of_append_left.of_append_left.of_append_right
  · exact hn.of_append_left.of_append_left.of_append_right

theorem discard_table_ms (g : Game) :
    (↑(all_cards (discard_table g)) : Multiset Card) = ↑(all_cards g) := by
  rw [all_cards_ms, all_cards_ms]
  unfold discard_table
  simp only [flatten_table]
  simp only [← Multiset.coe_add, Multiset.coe_nil]
  abel

theorem game_new_conserved (cards : List Card) (pturn : Bool)
    (hp : cards.Perm full_deck) :
    (↑(all_cards (Game.new cards pturn)) : Multiset Card) = ↑full_deck := by
  rw [all_cards_ms]
  unfold Game.new
  simp only [flatten_table]
  refine Multiset.ext.mpr (fun x => ?_)
  have h0 := congrArg (Multiset.count x) (Multiset.coe_eq_coe.mpr hp)
  have h1 := congrArg (Multiset.count x) (draw_from_ms [] cards)
  have h2 := congrArg (Multiset.count x) (draw_from_ms [] (draw_from [] cards).2)
  simp only [Multiset.count_add, Multiset.coe_nil, Multiset.count_zero] at h0 h1 h2 ⊢
  omega

theorem wrap_fst {G g2 : Game} {resp r : Response}
    (h : (match winner G with
          | some w => (G, Response.GameOver w)
          | none => (G, resp)) = (g2, r)) : g2 = G := by
  cases hw : winner G <;> rw [hw] at h <;> exact (congrArg Prod.fst h).symm

theorem defend_conserved {g g2 : Game} {c : Card} {r : Response}
    (hc : (↑(all_cards g) : Multiset Card) = ↑full_deck)
    (hmem : c ∈ g.player)
    (hs : defend g c = some (g2, r)) :
    (↑(all_cards g2) : Multiset Card) = ↑full_deck := by
  obtain ⟨hnp, hnc⟩ := all_cards_nodup_parts hc
  unfold defend at hs
  by_cases hpt : g.players_turn = false
  · rw [if_pos hpt] at hs; cases hs
  rw [if_neg hpt] at hs
  by_cases hfull : g.table.is_full = true
  · rw [if_pos hfull] at hs; cases hs
  rw [if_neg hfull] at hs
  cases haw : attack_with c g.player g.table with
  | none => rw [haw] at hs; cases hs
  | some p =>
    rw [haw] at hs
    obtain ⟨hlen, rfl⟩ := attack_with_eq haw
    simp only [] at hs
    have hg1 : (↑(all_cards
        { g with player := Hand.remove c g.player, table := g.table ++ [(c, none)] }) :
          Multiset Card) = ↑full_deck := by
      rw [all_cards_ms]
      simp only []
      rw [all_cards_ms] at hc
      rw [← remove_ms hnp hmem] at hc
      rw [← hc]
      simp only [flatten_table_append, flatten_table]
      simp only [← Multiset.coe_add, Multiset.coe_singleton]
      abel
    cases hpd : ai_plan_defense
        { g with player := Hand.remove c g.player, table := g.table ++ [(c, none)] } with
    | some response =>
      rw [hpd] at hs
      simp only [] at hs
      cases hdw : defend_with response g.computer (g.table ++ [(c, none)]) with
      | none => rw [hdw] at hs; cases hs
      | some q =>
        rw [hdw] at hs
        obtain ⟨t0, a, htab, rfl⟩ := defend_with_eq hdw
        injection hs with hs
        simp only [] at hs
        have hg2 : g2 =
            { g with
              player := Hand.remove c g.player,
              computer := Hand.remove response g.computer,
              table := t0 ++ [(a, some response)] } := wrap_fst hs
        subst hg2
        have hmem2a := ai_plan_defense_mem hpd
        have hmem2 : response ∈ g.computer := hmem2a
        rw [all_cards_ms]
        simp only []
        rw [all_cards_ms] at hg1
        simp only [] at hg1
        rw [htab] at hg1
        rw [← remove_ms hnc hmem2] at hg1
        rw [← hg1]
        simp only [flatten_table_append, flatten_table]
        simp only [← Multiset.coe_add, ← Multiset.cons_coe, ← Multiset.singleton_add,
          Multiset.coe_nil, Multiset.coe_singleton]
        abel
    | none =>
      rw [hpd] at hs
      simp only [] at hs
      injection hs with hs
      simp only [] at hs
      have hg2 : g2 =
          { g with
            player := (draw_from (Hand.remove c g.player)
                (draw_from (take_from g.computer (g.table ++ [(c, none)])) g.deck).2).1,
            computer := (draw_from (take_from g.computer (g.table ++ [(c, none)])) g.deck).1,
            deck := (draw_from (Hand.remove c g.player)
                (draw_from (take_from g.computer (g.table ++ [(c, none)])) g.deck).2).2,
            table := [] } := wrap_fst hs
      subst hg2
      rw [all_cards_ms]
      simp only []
      rw [all_cards_ms] at hg1
      simp only [] at hg1
      refine Multiset.ext.mpr (fun x => ?_)
      have hx := congrArg (Multiset.count x) hg1
      have h1 := congrArg (Multiset.count x)
        (take_from_ms g.computer (g.table ++ [(c, none)]))
      have h2 := congrArg (Multiset.count x)
        (draw_from_ms (take_from g.computer (g.table ++ [(c, none)])) g.deck)
      have h3 := congrArg (Multiset.count x)
        (draw_from_ms (Hand.remove c g.player)
          (draw_from (take_from g.computer (g.table ++ [(c, none)])) g.deck).2)
      simp only [Multiset.count_add, flatten_table, Multiset.coe_nil,
        Multiset.count_zero] at hx h1 h2 h3 ⊢
      omega

theorem switch_turn_conserved {g g2 : Game} {r : Response}
    (hc : (↑(all_cards g) : Multiset Card) = ↑full_deck)
    (hs : switch_turn g = some (g2, r)) :
    (↑(all_cards g2) : Multiset Card) = ↑full_deck := by
  unfold switch_turn at hs
  by_cases hpt : g.players_turn = false
  · rw [if_pos hpt] at hs; cases hs
  rw [if_neg hpt] at hs
  simp only [] at hs
  have hg1 : (↑(all_cards
      { g with player := (draw_from g.player g.deck).1,
               computer := (draw_from g.computer (draw_from g.player g.deck).2).1,
               deck := (draw_from g.computer (draw_from g.player g.deck).2).2 }) :
        Multiset Card) = ↑full_deck := by
    rw [all_cards_ms]
    simp only []
    rw [all_cards_ms] at hc
    refine Multiset.ext.mpr (fun x => ?_)
    have hx := congrArg (Multiset.count x) hc
    have h1 := congrArg (Multiset.count x) (draw_from_ms g.player g.deck)
    have h2 := congrArg (Multiset.count x)
      (draw_from_ms g.computer (draw_from g.player g.deck).2)
    simp only [Multiset.count_add] at hx h1 h2 ⊢
    omega
  split at hs
  · injection hs with hs
    have hg2 := congrArg Prod.fst hs
    simp only [] at hg2
    subst hg2
    exact hg1
  · have hc2 : (↑(all_cards (discard_table
        { g with player := (draw_from g.player g.deck).1,
                 computer := (draw_from g.computer (draw_from g.player g.deck).2).1,
                 deck := (draw_from g.computer (draw_from g.player g.deck).2).2,
                 players_turn := false })) : Multiset Card) = ↑full_deck := by
      rw [discard_table_ms, all_cards_ms]
      simp only []
      rw [all_cards_ms] at hg1
      simp only [] at hg1
      exact hg1
    obtain ⟨hp2, hc2n⟩ := all_cards_nodup_parts hc2
    exact (start_attack_ms hc2n hs).trans hc2

theorem player_took_cards_conserved {g g2 : Game} {r : Response}
    (hc : (↑(all_cards g) : Multiset Card) = ↑full_deck)
    (hs : player_took_cards g = some (g2, r)) :
    (↑(all_cards g2) : Multiset Card) = ↑full_deck := by
  unfold player_took_cards at hs
  by_cases hpt : g.players_turn = true
  · rw [if_pos hpt] at hs; cases hs
  rw [if_neg hpt] at hs
  simp only [] at hs
  have hg1 : (↑(all_cards
      { g with player := take_from g.player g.table,
               computer := (draw_from g.computer g.deck).1,
               deck := (draw_from g.computer g.deck).2,
               table := [] }) : Multiset Card) = ↑full_deck := by
    rw [all_cards_ms]
    simp only []
    rw [all_cards_ms] at hc
    refine Multiset.ext.mpr (fun x => ?_)
    have hx := congrArg (Multiset.count x) hc
    have h1 := congrArg (Multiset.count x) (take_from_ms g.player g.table)
    have h2 := congrArg (Multiset.count x) (draw_from_ms g.computer g.deck)
    simp only [Multiset.count_add, flatten_table, Multiset.coe_nil,
      Multiset.count_zero] at hx h1 h2 ⊢
    omega
  split at hs
  · injection hs with hs
    have hg2 := congrArg Prod.fst hs
    simp only [] at hg2
    subst hg2
    exact hg1
  · obtain ⟨hp2, hc2n⟩ := all_cards_nodup_parts hg1
    exact (start_attack_ms hc2n hs).trans hg1

theorem plan_attack_conserved {g g2 : Game} {c : Card} {r : Response}
    (hc : (↑(all_cards g) : Multiset Card) = ↑full_deck)
    (hmem : c ∈ g.player)
    (hs : plan_attack g c = some (g2, r)) :
    (↑(all_cards g2) : Multiset Card) = ↑full_deck := by
  obtain ⟨hnp, hnc⟩ := all_cards_nodup_parts hc
  unfold plan_attack at hs
  by_cases hpt : g.players_turn = true
  · rw [if_pos hpt] at hs; cases hs
  rw [if_neg hpt] at hs
  cases hdw : defend_with c g.player g.table with
  | none => rw [hdw] at hs; cases hs
  | some p =>
    rw [hdw] at hs
    obtain ⟨t0, a, htab, rfl⟩ := defend_with_eq hdw
    simp only [] at hs
    have hg1 : (↑(all_cards
        { g with player := Hand.remove c g.player,
                 table := t0 ++ [(a, some c)] }) : Multiset Card) = ↑full_deck := by
      rw [all_cards_ms]
      simp only []
      rw [all_cards_ms] at hc
      rw [htab] at hc
      rw [← remove_ms hnp hmem] at hc
      rw [← hc]
      simp only [flatten_table_append, flatten_table]
      simp only [← Multiset.coe_add, ← Multiset.cons_coe, ← Multiset.singleton_add,
        Multiset.coe_nil, Multiset.coe_singleton]
      abel
    by_cases hfull :
        (Table.is_full (t0 ++ [(a, some c)]) : Bool) = true
    · rw [if_pos hfull] at hs
      have hg2m : (↑(all_cards
          { g with
            player := (draw_from (Hand.remove c g.player)
                (draw_from g.computer g.deck).2).1,
            computer := (draw_from g.computer g.deck).1,
            deck := (draw_from (Hand.remove c g.player)
                (draw_from g.computer g.deck).2).2,
            table := t0 ++ [(a, some c)] }) : Multiset Card) = ↑full_deck := by
        rw [all_cards_ms]
        simp only []
        rw [all_cards_ms] at hg1
        simp only [] at hg1
        refine Multiset.ext.mpr (fun x => ?_)
        have hx := congrArg (Multiset.count x) hg1
        have h1 := congrArg (Multiset.count x) (draw_from_ms g.computer g.deck)
        have h2 := congrArg (Multiset.count x)
          (draw_from_ms (Hand.remove c g.player) (draw_from g.computer g.deck).2)
        simp only [Multiset.count_add] at hx h1 h2 ⊢
        omega
      split at hs
      · injection hs with hs
        have hg2 := congrArg Prod.fst hs
        simp only [] at hg2
        subst hg2
        exact hg2m
      · injection hs with hs
        have hg2 := congrArg Prod.fst hs
        simp only [] at hg2
        subst hg2
        rw [discard_table_ms, all_cards_ms]
        simp only []
        rw [all_cards_ms] at hg2m
        simp only [] at hg2m
        exact hg2m
    · rw [if_neg hfull] at hs
      split at hs
      · injection hs with hs
        have hg2 := congrArg Prod.fst hs
        simp only [] at hg2
        subst hg2
        exact hg1
      · cases hai : ai_plan_attack
            { g with player := Hand.remove c g.player,
                     table := t0 ++ [(a, some c)] } with
        | some attack =>
          rw [hai] at hs
          simp only [] at hs
          cases haw2 : attack_with attack g.computer (t0 ++ [(a, some c)]) with
          | none => rw [haw2] at hs; cases hs
          | some q =>
            rw [haw2] at hs
            obtain ⟨hlen2, rfl⟩ := attack_with_eq haw2
            injection hs with hs
            simp only [] at hs
            have hg2 := congrArg Prod.fst hs
            simp only [] at hg2
            subst hg2
            have hmem2a := ai_plan_attack_mem hai
            have hmem2 : attack ∈ g.computer := hmem2a
            rw [all_cards_ms]
            simp only []
            rw [all_cards_ms] at hg1
            simp only [] at hg1
            rw [← remove_ms hnc hmem2] at hg1
            rw [← hg1]
            simp only [flatten_table_append, flatten_table]
            simp only [← Multiset.coe_add, ← Multiset.cons_coe, ← Multiset.singleton_add,
              Multiset.coe_nil, Multiset.coe_singleton]
            abel
        | none =>
          rw [hai] at hs
          simp only [discard_table] at hs
          injection hs with hs
          have hg2 := congrArg Prod.fst hs
          simp only [] at hg2
          subst hg2
          rw [all_cards_ms]
          simp only []
          rw [all_cards_ms] at hg1
          simp only [] at hg1
          refine Multiset.ext.mpr (fun x => ?_)
          have hx := congrArg (Multiset.count x) hg1
          have h1 := congrArg (Multiset.count x) (draw_from_ms g.computer g.deck)
          have h2 := congrArg (Multiset.count x)
            (draw_from_ms (Hand.remove c g.player) (draw_from g.computer g.deck).2)
          simp only [← Multiset.coe_add, Multiset.count_add, flatten_table,
            Multiset.coe_nil, Multiset.count_zero] at hx h1 h2 ⊢
          omega

theorem reachable_conserved : ∀ g : Game, Reachable g →
    (↑(all_cards g) : Multiset Card) = ↑full_deck := by
  intro g hg
  induction hg with
  | init cards pturn hperm => exact game_new_conserved cards pturn hperm
  | step g a g2 r hg hv hstep ih =>
    unfold player_action at hstep
    by_cases hpt : g.players_turn = true
    · rw [if_pos hpt] at hstep
      cases a with
      | Play card => exact defend_conserved ih (is_valid_move_mem hv) hstep
      | EndTurn => exact switch_turn_conserved ih hstep
    · rw [if_neg hpt] at hstep
      cases a with
      | Play card => exact plan_attack_conserved ih (is_valid_move_mem hv) hstep
      | EndTurn => exact player_took_cards_conserved ih hstep

/-- C1: in every game state reachable from `Game::new` by `player_action`
calls whose `Play` actions pass `is_valid_move`, the cards in the deck,
the two hands, the table (attack and present defense cards) and the
discard pile number 36 in total, and no card appears twice across these
containers. -/
theorem C1_card_conservation : ∀ g : Game, Reachable g →
    (all_cards g).length = 36 ∧ (all_cards g).Nodup := by
  intro g hg
  have hms := reachable_conserved g hg
  constructor
  · have hcard := congrArg Multiset.card hms
    rw [Multiset.coe_card, Multiset.coe_card] at hcard
    rw [hcard, full_deck_length]
  · have hnd : (↑(all_cards g) : Multiset Card).Nodup := by
      rw [hms]
      exact Multiset.coe_nodup.mpr full_deck_nodup
    exact Multiset.coe_nodup.mp hnd

theorem C1_card_conservation_witness :
    (all_cards (Game.new full_deck true)).length = 36 ∧
      (all_cards (Game.new full_deck true)).Nodup :=
  C1_card_conservation (Game.new full_deck true)
    (Reachable.init full_deck true (List.Perm.refl full_deck))

end Durak
